import Mathlib

/-!
Verification of the Panda Park dashboard's aggregation engine.

The repository has two near-identical front ends over the same logic:
`src/app.py` (Streamlit) and `src/main.py` (Gradio).  This file embeds the
data model and the aggregation/filtering operations shared by both, and
proves the specified properties about them.

Conventions of the embedding:
* a loaded transaction set is a `List Transaction` (a pandas DataFrame row
  list, in original order);
* pandas `groupby` sorts its keys ascending (lexicographic on strings),
  modelled by `List.insertionSort` over the deduplicated key column;
* `pd.to_datetime` parsing is modelled by `parseTimestamp` over the
  canonical `YYYY-MM-DD HH:MM:SS` encoding; a parse failure on any record
  aborts the whole load, as the library raises on the first bad value;
* `value_counts` (counts per distinct observed value) is modelled per
  distinct key in first-appearance order; its frequency-descending display
  order is irrelevant to every property stated here, which only concern
  the multiset of (key, count) pairs or their sum.
-/

namespace PandaPark

/-- A parsed timestamp, the result of `pd.to_datetime` on `entry_time`
(`app.py` line 47, `main.py` line 14). -/
structure Timestamp where
  year : Nat
  month : Nat
  day : Nat
  hour : Nat
  minute : Nat
  second : Nat
deriving DecidableEq, Repr

/-- Split a character list at every occurrence of `sep` (the string
splitting used to read the timestamp components). -/
def splitOnChar (sep : Char) : List Char → List (List Char)
  | [] => [[]]
  | c :: cs =>
    if c = sep then [] :: splitOnChar sep cs
    else
      match splitOnChar sep cs with
      | [] => [[c]]
      | g :: gs => (c :: g) :: gs

/-- Parse a non-empty all-digit character list as a decimal number. -/
def parseNat (cs : List Char) : Option Nat :=
  if cs ≠ [] ∧ cs.all (·.isDigit) then
    some (cs.foldl (fun n c => n * 10 + (c.toNat - 48)) 0)
  else none

/-- Parse one `entry_time` string of the canonical form
`YYYY-MM-DD HH:MM:SS`; `none` models a `pd.to_datetime` parse error. -/
def parseTimestamp (s : String) : Option Timestamp :=
  match splitOnChar ' ' s.data with
  | [d, t] =>
    match splitOnChar '-' d, splitOnChar ':' t with
    | [y, mo, da], [h, mi, se] =>
      match parseNat y, parseNat mo, parseNat da, parseNat h, parseNat mi, parseNat se with
      | some yn, some mon, some dan, some hn, some mins, some sen =>
        if 1 ≤ mon ∧ mon ≤ 12 ∧ 1 ≤ dan ∧ dan ≤ 31 ∧ hn < 24 ∧ mins < 60 ∧ sen < 60 then
          some ⟨yn, mon, dan, hn, mins, sen⟩
        else none
      | _, _, _, _, _, _ => none
    | _, _ => none
  | _ => none

/-- Lexicographic (code-point) comparison of character lists: the string
order used by Python and pandas when sorting or maximising
`transaction_date` values. -/
def chLe : List Char → List Char → Bool
  | [], _ => true
  | _ :: _, [] => false
  | a :: as, b :: bs =>
    if a < b then true
    else if b < a then false
    else chLe as bs

/-- The string order induced by `chLe` on the underlying characters. -/
def strLe (a b : String) : Prop := chLe a.data b.data = true

instance : DecidableRel strLe := fun a b =>
  inferInstanceAs (Decidable (chLe a.data b.data = true))

/-- One raw JSON object of `panda-park-data.json` (fields of the data
model; other passthrough fields are opaque and omitted). -/
structure RawRecord where
  transaction_date : String
  entry_time : String
  duration_minutes : Nat
  payment_method : String
  capture_license_plate_url : String
deriving DecidableEq, Repr

/-- One row of the loaded DataFrame: the raw fields plus the derived
`entry_dt` column (`df["entry_dt"] = pd.to_datetime(df["entry_time"])`). -/
structure Transaction where
  transaction_date : String
  entry_time : String
  duration_minutes : Nat
  payment_method : String
  capture_license_plate_url : String
  entry_dt : Timestamp
deriving DecidableEq, Repr

/-- The ways `load` can fail (spec §7: `DataLoadError`). -/
inductive DataLoadError where
  | missingFile
  | invalidJson
  | unparseableEntryTime (raw : String)
deriving DecidableEq, Repr

/-- The state of the data source seen by `open` + `json.load`:
the file may be missing, hold invalid JSON, or hold a JSON array of
records. -/
inductive RawSource where
  | missing
  | invalid
  | records (rs : List RawRecord)

/-- Parse the `entry_dt` column for every record; the first unparseable
`entry_time` aborts the whole load (`pd.to_datetime` raises). -/
def parse_records : List RawRecord → Except DataLoadError (List Transaction)
  | [] => .ok []
  | r :: rest =>
    match parseTimestamp r.entry_time with
    | none => .error (.unparseableEntryTime r.entry_time)
    | some dt =>
      match parse_records rest with
      | .error e => .error e
      | .ok ts =>
        .ok ({ transaction_date := r.transaction_date
               entry_time := r.entry_time
               duration_minutes := r.duration_minutes
               payment_method := r.payment_method
               capture_license_plate_url := r.capture_license_plate_url
               entry_dt := dt } :: ts)

/-- Model of `load_data` (`app.py` lines 42-48; module level of `main.py` lines
9-14): open the file, parse the JSON, build the DataFrame and the
`entry_dt` column.  Any failure is an error value; no partial set is
returned. -/
def load_data : RawSource → Except DataLoadError (List Transaction)
  | .missing => .error .missingFile
  | .invalid => .error .invalidJson
  | .records rs => parse_records rs

/-- Model of `total_transactions = len(df)` (`app.py` line 56, `main.py` line 20). -/
def total_transactions (ts : List Transaction) : Nat := ts.length

/-- The distinct `transaction_date` keys in ascending (lexicographic)
order, as produced by `df.groupby("transaction_date")` followed by
`sort_values("transaction_date")`. -/
def sortedDates (ts : List Transaction) : List String :=
  List.insertionSort strLe (ts.map (·.transaction_date)).dedup

/-- Model of `date_group = df.groupby("transaction_date").size()`, sorted ascending
by date (`app.py` lines 57-58; `line_data` in `main.py` line 49). -/
def date_group (ts : List Transaction) : List (String × Nat) :=
  (sortedDates ts).map fun d => (d, (ts.filter (·.transaction_date == d)).length)

/-- Model of `selected_day = date_group.iloc[-1]["transaction_date"]`
(`app.py` line 59); `none` when the set is empty. -/
def selected_day (ts : List Transaction) : Option String :=
  ((date_group ts).getLast?).map (·.1)

/-- Model of `today_count = date_group.iloc[-1]["count"]` (`app.py` line 60). -/
def today_count (ts : List Transaction) : Option Nat :=
  ((date_group ts).getLast?).map (·.2)

/-- Model of `delta_day = today_count - (date_group.iloc[-2]["count"] if
len(date_group) >= 2 else 0)` (`app.py` line 61); `iloc[-1]` and
`iloc[-2]` are read off the reversed group list. -/
def delta_day (ts : List Transaction) : Option Int :=
  match (date_group ts).reverse with
  | [] => none
  | (_, c) :: rest =>
    some ((c : Int) - (match rest with
      | [] => 0
      | (_, c2) :: _ => (c2 : Int)))

/-- Model of `payment_counts = df["payment_method"].value_counts()` (`app.py`
line 62, `main.py` line 28): one count per distinct observed value. -/
def payment_counts (ts : List Transaction) : List (String × Nat) :=
  (ts.map (·.payment_method)).dedup.map
    fun m => (m, (ts.filter (·.payment_method == m)).length)

/-- Model of `df["entry_hour"] = df["entry_dt"].dt.hour` (`app.py` line 63,
`main.py` line 33). -/
def entry_hour (t : Transaction) : Nat := t.entry_dt.hour

/-- Model of `len(df[(df["entry_hour"] >= lo) & (df["entry_hour"] < hi)])`. -/
def segCount (lo hi : Nat) (ts : List Transaction) : Nat :=
  (ts.filter fun t => decide (lo ≤ entry_hour t ∧ entry_hour t < hi)).length

/-- Model of `busy_hours` (`app.py` lines 64-69; `seg1..seg4` in `main.py` lines
34-37): the four 3-hour buckets of the 10:00-22:00 operating window. -/
def busy_hours (ts : List Transaction) : Nat × Nat × Nat × Nat :=
  (segCount 10 13 ts, segCount 13 16 ts, segCount 16 19 ts, segCount 19 22 ts)

/-- The sum of the four busy-hour bucket counts. -/
def busySum (ts : List Transaction) : Nat :=
  segCount 10 13 ts + segCount 13 16 ts + segCount 16 19 ts + segCount 19 22 ts

/-- Model of `filter_data` (`main.py` lines 63-68) and the identical `filtered_df`
computation (`app.py` lines 145-148): exact-match filter on
`payment_method`, with sentinel `"All"` returning a copy of the whole
set. -/
def filter_data (ts : List Transaction) (payment_method : String) : List Transaction :=
  if payment_method ≠ "All" then
    ts.filter fun t => t.payment_method == payment_method
  else
    ts

namespace Gr

/-- Model of `selected_day = df["transaction_date"].max()` (`main.py` line 24):
the maximum of the `transaction_date` column under the string order,
`none` for an empty column. -/
def selected_day (ts : List Transaction) : Option String :=
  match ts.map (·.transaction_date) with
  | [] => none
  | d :: ds => some (ds.foldl (fun acc x => if strLe acc x then x else acc) d)

/-- Model of `transactions_for_day = len(df[df["transaction_date"] ==
selected_day])` (`main.py` line 25). -/
def transactions_for_day (ts : List Transaction) : Nat :=
  match selected_day ts with
  | none => 0
  | some d => (ts.filter (·.transaction_date == d)).length

end Gr

/-- The values entered in the `app.py` edit form (lines 190-209). -/
structure EditValues where
  transaction_date : String
  payment_method : String
  entry_time : String
  duration_minutes : Nat
  capture_license_plate_url : String

/-- Overwrite the editable columns of one row (`filtered_df.loc[row_idx,
...] = ...`, `app.py` lines 214-220); the derived `entry_dt` column is
not touched by the form. -/
def applyEditVals (t : Transaction) (v : EditValues) : Transaction :=
  { t with transaction_date := v.transaction_date
           payment_method := v.payment_method
           entry_time := v.entry_time
           duration_minutes := v.duration_minutes
           capture_license_plate_url := v.capture_license_plate_url }

/-- The transient filtered view: the filtered rows of `df` paired with
their original DataFrame index labels (`app.py` lines 145-148 keep the
original index; `.copy()` makes the rows independent of `df`). -/
def mkFiltered (df : List Transaction) (pm : String) : List (Nat × Transaction) :=
  if pm ≠ "All" then
    df.enum.filter fun p => p.2.payment_method == pm
  else
    df.enum

/-- The in-memory state of the dashboard page: the backing set `df` and
the transient filtered copy shown in the grid. -/
structure DashState where
  df : List Transaction
  filtered : List (Nat × Transaction)

/-- State after loading and choosing a payment-method filter. -/
def mkState (df : List Transaction) (pm : String) : DashState :=
  ⟨df, mkFiltered df pm⟩

/-- The `Save Changes` handler (`app.py` lines 212-220): write the form
values into the row of `filtered_df` whose index label is `row_idx`.
The backing `df` is not assigned to, and the write-back to JSON is
commented out (lines 222-225). -/
def saveChanges (s : DashState) (row_idx : Nat) (v : EditValues) : DashState :=
  ⟨s.df, s.filtered.map (fun p => if p.1 = row_idx then (p.1, applyEditVals p.2 v) else p)⟩

/-! ### Concrete datasets used as witnesses and counterexamples -/

/-- Shorthand for a raw JSON record. -/
def mkRaw (date time pm : String) : RawRecord :=
  { transaction_date := date
    entry_time := time
    duration_minutes := 30
    payment_method := pm
    capture_license_plate_url := "" }

/-- Shorthand for a loaded row. -/
def mkTx (date time pm : String) (dt : Timestamp) : Transaction :=
  { transaction_date := date
    entry_time := time
    duration_minutes := 30
    payment_method := pm
    capture_license_plate_url := ""
    entry_dt := dt }

/-- A raw dataset with a single distinct `transaction_date` carrying four
records. -/
def exRawSingle : List RawRecord :=
  [ mkRaw "2024-01-01" "2024-01-01 10:00:00" "QRIS"
  , mkRaw "2024-01-01" "2024-01-01 11:00:00" "QRIS"
  , mkRaw "2024-01-01" "2024-01-01 12:00:00" "OVO"
  , mkRaw "2024-01-01" "2024-01-01 13:00:00" "DANA" ]

/-- The loaded form of `exRawSingle`. -/
def exSingle : List Transaction :=
  [ mkTx "2024-01-01" "2024-01-01 10:00:00" "QRIS" ⟨2024, 1, 1, 10, 0, 0⟩
  , mkTx "2024-01-01" "2024-01-01 11:00:00" "QRIS" ⟨2024, 1, 1, 11, 0, 0⟩
  , mkTx "2024-01-01" "2024-01-01 12:00:00" "OVO" ⟨2024, 1, 1, 12, 0, 0⟩
  , mkTx "2024-01-01" "2024-01-01 13:00:00" "DANA" ⟨2024, 1, 1, 13, 0, 0⟩ ]

/-- A loaded dataset with two distinct dates, of daily counts 1 and 2. -/
def exTwo : List Transaction :=
  [ mkTx "2024-01-01" "2024-01-01 11:00:00" "QRIS" ⟨2024, 1, 1, 11, 0, 0⟩
  , mkTx "2024-01-02" "2024-01-02 20:00:00" "QRIS" ⟨2024, 1, 2, 20, 0, 0⟩
  , mkTx "2024-01-02" "2024-01-02 14:00:00" "OVO" ⟨2024, 1, 2, 14, 0, 0⟩ ]

/-- A raw dataset whose second record has an unparseable `entry_time`. -/
def exRawBad : List RawRecord :=
  [ mkRaw "2024-01-01" "2024-01-01 10:00:00" "QRIS"
  , mkRaw "2024-01-01" "garbage" "QRIS" ]

/-! ### Properties of the string order -/

lemma chLe_refl (a : List Char) : chLe a a = true := by
  induction a with
  | nil => rfl
  | cons x as ih => simp [chLe, lt_irrefl, ih]

lemma chLe_total (a : List Char) : ∀ b, chLe a b = true ∨ chLe b a = true := by
  induction a with
  | nil => intro b; exact Or.inl rfl
  | cons x as ih =>
    intro b
    cases b with
    | nil => exact Or.inr rfl
    | cons y bs =>
      rcases lt_trichotomy x y with h | h | h
      · exact Or.inl (by simp [chLe, h])
      · subst h
        rcases ih bs with h2 | h2
        · exact Or.inl (by simp [chLe, lt_irrefl, h2])
        · exact Or.inr (by simp [chLe, lt_irrefl, h2])
      · exact Or.inr (by simp [chLe, h])

lemma chLe_trans (a : List Char) :
    ∀ b c, chLe a b = true → chLe b c = true → chLe a c = true := by
  induction a with
  | nil => intro b c _ _; rfl
  | cons x as ih =>
    intro b c hab hbc
    cases b with
    | nil => simp [chLe] at hab
    | cons y bs =>
      cases c with
      | nil => simp [chLe] at hbc
      | cons z cs =>
        simp only [chLe] at hab hbc ⊢
        rcases lt_trichotomy x y with hxy | hxy | hxy
        · rcases lt_trichotomy y z with hyz | hyz | hyz
          · simp [lt_trans hxy hyz]
          · subst hyz; simp [hxy]
          · rw [if_neg (lt_asymm hyz), if_pos hyz] at hbc; exact absurd hbc (by simp)
        · subst hxy
          rw [if_neg (lt_irrefl x), if_neg (lt_irrefl x)] at hab
          rcases lt_trichotomy x z with hxz | hxz | hxz
          · simp [hxz]
          · subst hxz
            rw [if_neg (lt_irrefl x), if_neg (lt_irrefl x)] at hbc
            rw [if_neg (lt_irrefl x), if_neg (lt_irrefl x)]
            exact ih bs cs hab hbc
          · rw [if_neg (lt_asymm hxz), if_pos hxz] at hbc; exact absurd hbc (by simp)
        · rw [if_neg (lt_asymm hxy), if_pos hxy] at hab; exact absurd hab (by simp)

lemma chLe_antisymm (a : List Char) :
    ∀ b, chLe a b = true → chLe b a = true → a = b := by
  induction a with
  | nil =>
    intro b _ hba
    cases b with
    | nil => rfl
    | cons y bs => simp [chLe] at hba
  | cons x as ih =>
    intro b hab hba
    cases b with
    | nil => simp [chLe] at hab
    | cons y bs =>
      simp only [chLe] at hab hba
      rcases lt_trichotomy x y with h | h | h
      · rw [if_neg (lt_asymm h), if_pos h] at hba; exact absurd hba (by simp)
      · subst h
        rw [if_neg (lt_irrefl x), if_neg (lt_irrefl x)] at hab hba
        rw [ih bs hab hba]
      · rw [if_neg (lt_asymm h), if_pos h] at hab; exact absurd hab (by simp)

lemma strLe_refl (a : String) : strLe a a := chLe_refl a.data

lemma strLe_total (a b : String) : strLe a b ∨ strLe b a := chLe_total a.data b.data

lemma strLe_trans {a b c : String} (h1 : strLe a b) (h2 : strLe b c) : strLe a c :=
  chLe_trans a.data b.data c.data h1 h2

lemma strLe_antisymm : ∀ {a b : String}, strLe a b → strLe b a → a = b := by
  intro ⟨da⟩ ⟨db⟩ h1 h2
  exact congrArg String.mk (chLe_antisymm da db h1 h2)

instance : IsTotal String strLe := ⟨strLe_total⟩

instance : IsTrans String strLe := ⟨fun _ _ _ => strLe_trans⟩

/-! ### C2 — load failure semantics -/

lemma parse_records_error (rs : List RawRecord)
    (h : ∃ r ∈ rs, parseTimestamp r.entry_time = none) :
    ∃ e, parse_records rs = .error e := by
  induction rs with
  | nil => rcases h with ⟨r, hr, _⟩; cases hr
  | cons r rest ih =>
    rcases h with ⟨r2, hr2, hp⟩
    rcases List.mem_cons.mp hr2 with rfl | hmem
    · exact ⟨.unparseableEntryTime r2.entry_time, by simp [parse_records, hp]⟩
    · by_cases hr : parseTimestamp r.entry_time = none
      · exact ⟨.unparseableEntryTime r.entry_time, by simp [parse_records, hr]⟩
      · rcases Option.ne_none_iff_exists'.mp hr with ⟨dt, hdt⟩
        rcases ih ⟨r2, hmem, hp⟩ with ⟨e, he⟩
        exact ⟨e, by simp [parse_records, hdt, he]⟩

/-- C2: `load` fails whenever the source file is missing, the source is
not a valid JSON array, or some record's `entry_time` does not parse;
the result is then an error value, so no partially loaded set reaches
the aggregation operations. -/
theorem load_data_fails (src : RawSource)
    (h : src = .missing ∨ src = .invalid ∨
      ∃ rs, src = .records rs ∧ ∃ r ∈ rs, parseTimestamp r.entry_time = none) :
    (load_data src).isOk = false := by
  rcases h with rfl | rfl | ⟨rs, rfl, hbad⟩
  · rfl
  · rfl
  · rcases parse_records_error rs hbad with ⟨e, he⟩
    show (parse_records rs).isOk = false
    rw [he]
    rfl

/-- Witness for C2 at a concrete source whose second record has the
unparseable `entry_time` string `"garbage"`. -/
theorem load_data_fails_witness :
    (load_data (.records exRawBad)).isOk = false :=
  load_data_fails (.records exRawBad)
    (Or.inr (Or.inr ⟨exRawBad, rfl,
      ⟨mkRaw "2024-01-01" "garbage" "QRIS", by decide, rfl⟩⟩))

/-! ### C3, C4, C5 — payment-method filtering -/

/-- C3: filtering with the sentinel `"All"` returns the input set
unchanged: same records, same order. -/
theorem filter_data_all (ts : List Transaction) :
    filter_data ts "All" = ts := by
  simp [filter_data]

/-- C4: for any method other than `"All"`, the filter returns exactly
the records whose `payment_method` equals it (case-sensitive exact
string match), in the original order (a sublist of the input), and the
filter is idempotent. -/
theorem filter_data_exact (ts : List Transaction) (m : String) (h : m ≠ "All") :
    filter_data ts m = ts.filter (fun t => t.payment_method == m) ∧
    (∀ t ∈ filter_data ts m, t.payment_method = m) ∧
    List.Sublist (filter_data ts m) ts ∧
    filter_data (filter_data ts m) m = filter_data ts m := by
  have he : filter_data ts m = ts.filter (fun t => t.payment_method == m) := by
    simp [filter_data, h]
  refine ⟨he, ?_, ?_, ?_⟩
  · intro t ht
    rw [he] at ht
    simpa using (List.mem_filter.mp ht).2
  · rw [he]; exact List.filter_sublist ts
  · rw [he]
    simp [filter_data, h, List.filter_filter]

/-- Witness for C4 at a concrete set and method `"QRIS"`. -/
theorem filter_data_exact_witness :
    filter_data exTwo "QRIS" = exTwo.filter (fun t => t.payment_method == "QRIS") ∧
    (∀ t ∈ filter_data exTwo "QRIS", t.payment_method = "QRIS") ∧
    List.Sublist (filter_data exTwo "QRIS") exTwo ∧
    filter_data (filter_data exTwo "QRIS") "QRIS" = filter_data exTwo "QRIS" :=
  filter_data_exact exTwo "QRIS" (by decide)

/-- C5: a filter value that is neither `"All"` nor a `payment_method`
occurring in the set yields the empty result set (and the filter is a
total function, so no error is possible). -/
theorem filter_data_unknown (ts : List Transaction) (m : String)
    (h1 : m ≠ "All") (h2 : ∀ t ∈ ts, t.payment_method ≠ m) :
    filter_data ts m = [] := by
  have he : filter_data ts m = ts.filter (fun t => t.payment_method == m) := by
    simp [filter_data, h1]
  rw [he, List.filter_eq_nil_iff]
  intro t ht
  simpa using h2 t ht

/-- Witness for C5: the value `"CASH"` is outside the fixed option list
and absent from the concrete set; the result is empty. -/
theorem filter_data_unknown_witness : filter_data exTwo "CASH" = [] :=
  filter_data_unknown exTwo "CASH" (by decide) (by decide)

/-! ### C8 — edits touch only the transient filtered view -/

/-- C8: saving the edit form rewrites one row of the transient filtered
copy only; the backing set is untouched, so every aggregate statistic
and any recomputed filtered view over the backing set is unchanged. -/
theorem saveChanges_frame (df : List Transaction) (pm : String) (i : Nat) (v : EditValues) :
    (saveChanges (mkState df pm) i v).df = df ∧
    total_transactions (saveChanges (mkState df pm) i v).df = total_transactions df ∧
    date_group (saveChanges (mkState df pm) i v).df = date_group df ∧
    payment_counts (saveChanges (mkState df pm) i v).df = payment_counts df ∧
    busy_hours (saveChanges (mkState df pm) i v).df = busy_hours df ∧
    delta_day (saveChanges (mkState df pm) i v).df = delta_day df ∧
    (∀ pm2, mkFiltered (saveChanges (mkState df pm) i v).df pm2 = mkFiltered df pm2) :=
  ⟨rfl, rfl, rfl, rfl, rfl, rfl, fun _ => rfl⟩

/-! ### C6 — busy-hour buckets -/

lemma segCount_cons (lo hi : Nat) (t : Transaction) (ts : List Transaction) :
    segCount lo hi (t :: ts) =
      (if lo ≤ entry_hour t ∧ entry_hour t < hi then 1 else 0) + segCount lo hi ts := by
  by_cases h : lo ≤ entry_hour t ∧ entry_hour t < hi
  · simp [segCount, List.filter_cons, h, Nat.add_comm]
  · simp [segCount, List.filter_cons, h]

lemma busySum_eq_filter (ts : List Transaction) :
    busySum ts = (ts.filter fun t => decide (10 ≤ entry_hour t ∧ entry_hour t < 22)).length := by
  induction ts with
  | nil => rfl
  | cons t ts ih =>
    have hcons : ((t :: ts).filter fun x => decide (10 ≤ entry_hour x ∧ entry_hour x < 22)).length
        = (if 10 ≤ entry_hour t ∧ entry_hour t < 22 then 1 else 0)
          + (ts.filter fun x => decide (10 ≤ entry_hour x ∧ entry_hour x < 22)).length := by
      by_cases h : 10 ≤ entry_hour t ∧ entry_hour t < 22
      · simp [List.filter_cons, h, Nat.add_comm]
      · simp [List.filter_cons, h]
    rw [busySum] at ih
    rw [busySum, segCount_cons, segCount_cons, segCount_cons, segCount_cons, hcons, ← ih]
    split_ifs <;> omega

/-- C6: the four busy-hour bucket counts sum to at most the total count,
with equality exactly when every record's entry hour (taken from the
parsed `entry_time`) lies in the half-open window `[10, 22)`; records
outside the window fall in no bucket and are silently dropped from this
statistic. -/
theorem busy_hours_sum (ts : List Transaction) :
    (busy_hours ts).1 + (busy_hours ts).2.1 + (busy_hours ts).2.2.1 + (busy_hours ts).2.2.2
        ≤ total_transactions ts ∧
    ((busy_hours ts).1 + (busy_hours ts).2.1 + (busy_hours ts).2.2.1 + (busy_hours ts).2.2.2
        = total_transactions ts ↔ ∀ t ∈ ts, 10 ≤ entry_hour t ∧ entry_hour t < 22) := by
  have hb : (busy_hours ts).1 + (busy_hours ts).2.1 + (busy_hours ts).2.2.1
      + (busy_hours ts).2.2.2 = busySum ts := rfl
  rw [hb, busySum_eq_filter]
  constructor
  · exact List.length_filter_le _ ts
  · rw [show total_transactions ts = ts.length from rfl, List.filter_length_eq_length]
    constructor
    · intro hall t ht
      simpa using hall t ht
    · intro hall t ht
      simpa using hall t ht

/-! ### C7 and C10 — every record lands in exactly one group -/

lemma indicator_sum_zero (a : String) (ks : List String) (ha : a ∉ ks) :
    (ks.map (fun k => if a = k then (1 : Nat) else 0)).sum = 0 := by
  induction ks with
  | nil => rfl
  | cons k ks ih =>
    simp only [List.mem_cons, not_or] at ha
    simp [ha.1, ih ha.2]

lemma indicator_sum_one (a : String) (ks : List String) (hnd : ks.Nodup) (ha : a ∈ ks) :
    (ks.map (fun k => if a = k then (1 : Nat) else 0)).sum = 1 := by
  induction ks with
  | nil => cases ha
  | cons k ks ih =>
    rcases List.mem_cons.mp ha with rfl | hmem
    · have hnotin : a ∉ ks := (List.nodup_cons.mp hnd).1
      simp [indicator_sum_zero a ks hnotin]
    · have hne : a ≠ k := by
        rintro rfl
        exact (List.nodup_cons.mp hnd).1 hmem
      simp [hne, ih (List.nodup_cons.mp hnd).2 hmem]

lemma sum_fiber (key : Transaction → String) (ts : List Transaction) :
    ∀ ks : List String, ks.Nodup → (∀ t ∈ ts, key t ∈ ks) →
      (ks.map (fun k => (ts.filter (fun t => key t == k)).length)).sum = ts.length := by
  induction ts with
  | nil => intro ks _ _; simp
  | cons t ts ih =>
    intro ks hnd hcov
    have hstep : ∀ k ∈ ks, (((t :: ts).filter (fun x => key x == k)).length)
        = (if key t = k then 1 else 0) + (ts.filter (fun x => key x == k)).length := by
      intro k _
      by_cases h : key t = k
      · simp [List.filter_cons, h, Nat.add_comm]
      · simp [List.filter_cons, h]
    rw [List.map_congr_left hstep, List.sum_map_add,
      indicator_sum_one (key t) ks hnd (hcov t (List.mem_cons_self t ts)),
      ih ks hnd (fun x hx => hcov x (List.mem_cons_of_mem t hx))]
    simp [Nat.add_comm]

/-- C7: for a non-empty set, the total transaction count equals the sum
of the per-date counts of the daily grouping; every record is counted
in exactly one date group. -/
theorem total_eq_daily_sum (ts : List Transaction) (_h : ts ≠ []) :
    total_transactions ts = ((date_group ts).map (fun p => p.2)).sum := by
  have hnd : (sortedDates ts).Nodup :=
    ((List.perm_insertionSort strLe _).symm).nodup (List.nodup_dedup _)
  have hcov : ∀ t ∈ ts, t.transaction_date ∈ sortedDates ts := by
    intro t ht
    exact ((List.perm_insertionSort strLe _).mem_iff).mpr
      (List.mem_dedup.mpr (List.mem_map_of_mem _ ht))
  rw [show total_transactions ts = ts.length from rfl]
  rw [date_group, List.map_map]
  exact (sum_fiber (fun t => t.transaction_date) ts (sortedDates ts) hnd hcov).symm

/-- Witness for C7 at a concrete non-empty three-record set. -/
theorem total_eq_daily_sum_witness :
    total_transactions exTwo = ((date_group exTwo).map (fun p => p.2)).sum :=
  total_eq_daily_sum exTwo (by decide)

/-- C10: the payment-method breakdown drops no record: its counts sum to
the total transaction count, unlike the busy-hour statistic. -/
theorem payment_counts_total (ts : List Transaction) :
    ((payment_counts ts).map (fun p => p.2)).sum = total_transactions ts := by
  have hnd : ((ts.map (·.payment_method)).dedup).Nodup := List.nodup_dedup _
  have hcov : ∀ t ∈ ts, t.payment_method ∈ (ts.map (·.payment_method)).dedup := by
    intro t ht
    exact List.mem_dedup.mpr (List.mem_map_of_mem _ ht)
  rw [payment_counts, List.map_map]
  exact sum_fiber (fun t => t.payment_method) ts _ hnd hcov

/-! ### C1 — latest-day summary and its delta -/

/-- Counterexample to C1 as stated: a loadable set with a single
distinct `transaction_date` of count 4 yields `delta_day = 4`
(`today_count - 0`), not the claimed 0. -/
theorem delta_day_single_counterexample :
    load_data (.records exRawSingle) = .ok exSingle ∧
    date_group exSingle = [("2024-01-01", 4)] ∧
    delta_day exSingle = some 4 ∧
    delta_day exSingle ≠ some 0 :=
  ⟨rfl, by decide, by decide, by decide⟩

/-- C1 amended: the latest-day summary takes its date and count from the
last entry of the date-sorted daily counts; the delta is the count of
the last entry minus the count of the second-to-last entry when at
least two distinct dates exist, and equals the count of the single
entry itself (count minus 0) when only one distinct date exists. -/
theorem latestDaySummary_amended (ts : List Transaction) :
    (∀ d c, (date_group ts).getLast? = some (d, c) →
      selected_day ts = some d ∧ today_count ts = some c) ∧
    (∀ d c, date_group ts = [(d, c)] → delta_day ts = some (c : Int)) ∧
    (∀ (pre : List (String × Nat)) (d2 : String) (c2 : Nat) (d1 : String) (c1 : Nat),
      date_group ts = pre ++ [(d2, c2), (d1, c1)] →
      delta_day ts = some ((c1 : Int) - (c2 : Int))) := by
  refine ⟨?_, ?_, ?_⟩
  · intro d c h
    constructor <;> simp [selected_day, today_count, h]
  · intro d c h
    simp [delta_day, h]
  · intro pre d2 c2 d1 c1 h
    simp [delta_day, h, List.reverse_append]

/-- Witness for C1's amended claim at a concrete set with daily counts
`[1, 2]`: the summary is the last entry and the delta is `2 - 1`. -/
theorem latestDaySummary_amended_witness :
    selected_day exTwo = some "2024-01-02" ∧ today_count exTwo = some 2 ∧
    delta_day exTwo = some ((2 : Int) - (1 : Int)) :=
  ⟨((latestDaySummary_amended exTwo).1 "2024-01-02" 2 (by decide)).1,
   ((latestDaySummary_amended exTwo).1 "2024-01-02" 2 (by decide)).2,
   (latestDaySummary_amended exTwo).2.2 [] "2024-01-01" 1 "2024-01-02" 2 (by decide)⟩

/-! ### C9 — the two variants agree on the latest-day count -/

lemma le_getLast?_of_sorted :
    ∀ l : List String, l.Sorted strLe → ∀ m, l.getLast? = some m → ∀ a ∈ l, strLe a m := by
  intro l
  induction l with
  | nil => intro _ m hm; simp at hm
  | cons x rest ih =>
    intro hs m hm a ha
    cases rest with
    | nil =>
      simp only [List.getLast?_singleton, Option.some.injEq] at hm
      rcases List.mem_singleton.mp ha with rfl
      rw [← hm]
      exact strLe_refl a
    | cons y rest2 =>
      rw [List.getLast?_cons_cons] at hm
      rcases List.mem_cons.mp ha with rfl | hmem
      · exact List.rel_of_sorted_cons hs m (List.mem_of_mem_getLast? hm)
      · exact ih hs.of_cons m hm a hmem

lemma foldlMax_spec (ds : List String) :
    ∀ d : String,
      (ds.foldl (fun acc x => if strLe acc x then x else acc) d) ∈ d :: ds ∧
      ∀ a ∈ d :: ds, strLe a (ds.foldl (fun acc x => if strLe acc x then x else acc) d) := by
  induction ds with
  | nil =>
    intro d
    constructor
    · simp
    · intro a ha
      rcases List.mem_singleton.mp ha with rfl
      exact strLe_refl a
  | cons e ds ih =>
    intro d
    have hfold : (e :: ds).foldl (fun acc x => if strLe acc x then x else acc) d
        = ds.foldl (fun acc x => if strLe acc x then x else acc) (if strLe d e then e else d) :=
      List.foldl_cons _ _
    obtain ⟨ihmem, ihub⟩ := ih (if strLe d e then e else d)
    constructor
    · rw [hfold]
      rcases List.mem_cons.mp ihmem with hr | hr
      · rw [hr]
        by_cases hde : strLe d e
        · simp [hde]
        · simp [hde]
      · exact List.mem_cons_of_mem _ (List.mem_cons_of_mem _ hr)
    · intro a ha
      rw [hfold]
      have hacc_le : strLe (if strLe d e then e else d)
          (ds.foldl (fun acc x => if strLe acc x then x else acc) (if strLe d e then e else d)) :=
        ihub _ (List.mem_cons_self _ _)
      rcases List.mem_cons.mp ha with rfl | ha2
      · have hdacc : strLe a (if strLe a e then e else a) := by
          by_cases hde : strLe a e
          · rw [if_pos hde]; exact hde
          · rw [if_neg hde]; exact strLe_refl a
        exact strLe_trans hdacc hacc_le
      rcases List.mem_cons.mp ha2 with rfl | ha3
      · have heacc : strLe a (if strLe d a then a else d) := by
          by_cases hde : strLe d a
          · rw [if_pos hde]; exact strLe_refl a
          · rw [if_neg hde]
            rcases strLe_total d a with h | h
            · exact absurd h hde
            · exact h
        exact strLe_trans heacc hacc_le
      · exact ihub a (List.mem_cons_of_mem _ ha3)

/-- C9: for every non-empty loaded dataset, the latest-day count of the
Streamlit variant (the count of the last entry of the date-sorted daily
group) equals the count obtained by the Gradio variant (the number of
records whose `transaction_date` equals the maximum date). -/
theorem today_count_refines (ts : List Transaction) (h : ts ≠ []) :
    today_count ts = some (Gr.transactions_for_day ts) := by
  have hdne : ts.map (·.transaction_date) ≠ [] := by
    intro hnil
    exact h (List.map_eq_nil_iff.mp hnil)
  have hsne : sortedDates ts ≠ [] := by
    intro hnil
    have hperm := List.perm_insertionSort strLe (ts.map (·.transaction_date)).dedup
    rw [show sortedDates ts
        = List.insertionSort strLe (ts.map (·.transaction_date)).dedup from rfl] at hnil
    rw [hnil] at hperm
    exact hdne ((List.dedup_eq_nil _).mp hperm.symm.eq_nil)
  obtain ⟨dl, hdl⟩ : ∃ dl, (sortedDates ts).getLast? = some dl :=
    ⟨_, List.getLast?_eq_getLast _ hsne⟩
  have hdl_mem : dl ∈ ts.map (·.transaction_date) :=
    List.mem_dedup.mp
      (((List.perm_insertionSort strLe _).mem_iff).mp (List.mem_of_mem_getLast? hdl))
  have hdl_ub : ∀ a ∈ ts.map (·.transaction_date), strLe a dl := by
    intro a ha
    exact le_getLast?_of_sorted _ (List.sorted_insertionSort strLe _) dl hdl a
      ((List.perm_insertionSort strLe _).mem_iff.mpr (List.mem_dedup.mpr ha))
  obtain ⟨d0, ds, hcons⟩ : ∃ d0 ds, ts.map (·.transaction_date) = d0 :: ds := by
    cases hd : ts.map (·.transaction_date) with
    | nil => exact absurd hd hdne
    | cons d0 ds => exact ⟨d0, ds, rfl⟩
  obtain ⟨hm_mem, hm_ub⟩ := foldlMax_spec ds d0
  rw [← hcons] at hm_mem hm_ub
  have hsel : Gr.selected_day ts
      = some (ds.foldl (fun acc x => if strLe acc x then x else acc) d0) := by
    rw [Gr.selected_day, hcons]
  have heq : dl = ds.foldl (fun acc x => if strLe acc x then x else acc) d0 :=
    strLe_antisymm (hm_ub dl hdl_mem)
      (hdl_ub (ds.foldl (fun acc x => if strLe acc x then x else acc) d0) hm_mem)
  have htc : today_count ts = some ((ts.filter (·.transaction_date == dl)).length) := by
    rw [today_count, date_group, List.getLast?_map, hdl]
    rfl
  have hgr : Gr.transactions_for_day ts
      = (ts.filter (·.transaction_date
          == ds.foldl (fun acc x => if strLe acc x then x else acc) d0)).length := by
    rw [Gr.transactions_for_day, hsel]
  rw [htc, hgr, heq]

/-- Witness for C9 at a concrete non-empty dataset. -/
theorem today_count_refines_witness :
    today_count exTwo = some (Gr.transactions_for_day exTwo) :=
  today_count_refines exTwo (by decide)

end PandaPark
